import Mathlib

/-!
Verification of teamtalk.py (JessicaTegner/teamtalk.py) against its
natural-language specification.

The Python source is shallowly embedded:
* `TTMessage` mirrors the fields of `sdk.TTMessage` the library reads
  (`nClientEvent`, `nSource`, `clienterrormsg`);
* a poll of the native message queue is a pair `(message, duration)`:
  the message `getMessage` returned and the wall-clock milliseconds the
  call took; wall time is the running sum of durations;
* the helpers in `teamtalk/_utils.py` become recursive functions over
  the (finite) list of polls; running out of polls yields `none`
  (the real loop would still be inside a blocking `getMessage` call);
* strings are lists of Unicode code points (`List Nat`), with the
  ASCII-range semantics of the Python `str` methods the code uses.
-/

namespace TeamTalkPy

/-- `sdk.ClientEvent.CLIENTEVENT_NONE` (TeamTalk5 SDK constant). -/
def CLIENTEVENT_NONE : Nat := 0

/-- `sdk.ClientEvent.CLIENTEVENT_CMD_ERROR` (TeamTalk5 SDK constant). -/
def CLIENTEVENT_CMD_ERROR : Nat := 210

/-- `sdk.ClientEvent.CLIENTEVENT_CMD_SUCCESS` (TeamTalk5 SDK constant). -/
def CLIENTEVENT_CMD_SUCCESS : Nat := 220

/-- The error payload embedded in a command-error message
(`msg.clienterrormsg` of the SDK's `TTMessage`). -/
structure ClientErrorMsg where
  nErrorNo : Int
  szErrorMsg : List Nat
deriving DecidableEq, Repr

/-- The empty `ClientErrorMsg()` (all fields zeroed). -/
def ClientErrorMsg.empty : ClientErrorMsg := ⟨0, []⟩

/-- The fields of `sdk.TTMessage` that `teamtalk/_utils.py` reads:
the event kind `nClientEvent`, the correlation id `nSource`, and the
embedded error payload `clienterrormsg`. -/
structure TTMessage where
  nClientEvent : Nat
  nSource : Int
  clienterrormsg : ClientErrorMsg
deriving DecidableEq, Repr

/-- A freshly constructed `sdk.TTMessage()`: the empty sentinel message
(`nClientEvent` is `CLIENTEVENT_NONE`, everything zeroed). -/
def TTMessage.empty : TTMessage := ⟨CLIENTEVENT_NONE, 0, ClientErrorMsg.empty⟩

/-- One poll of the native queue: the message `getMessage` returned and
how many milliseconds the call took. -/
abbrev Poll := TTMessage × Nat

/-- The three ways `_waitForCmd` (`teamtalk/_utils.py` lines 31-42)
returns: `(True, msg)` on a matching command-success event,
`(False, msg.clienterrormsg)` on a matching command-error event, and
`(False, sdk.TTMessage())` when the deadline has passed. -/
inductive WaitCmdResult where
  | success (msg : TTMessage)
  | cmdError (err : ClientErrorMsg)
  | timeout
deriving DecidableEq, Repr

/-- `_waitForCmd(ttclient, cmdid, timeout)` (`teamtalk/_utils.py`
lines 31-42), over the list of polls.  `endT` is the deadline
`timestamp() + timeout` computed on entry, `t` the wall clock before the
next poll.  Each iteration polls, returns on a command-error or
command-success message whose `nSource` equals `cmdid`, and otherwise
returns the empty sentinel once the clock has reached the deadline.
`none` means the poll list ran out before the loop returned. -/
def waitForCmd (cmdid : Int) (endT : Nat) : Nat → List Poll → Option WaitCmdResult
  | _, [] => none
  | t, (m, d) :: rest =>
    let t' := t + d
    if m.nClientEvent = CLIENTEVENT_CMD_ERROR ∧ m.nSource = cmdid then
      some (WaitCmdResult.cmdError m.clienterrormsg)
    else if m.nClientEvent = CLIENTEVENT_CMD_SUCCESS ∧ m.nSource = cmdid then
      some (WaitCmdResult.success m)
    else if endT ≤ t' then
      some WaitCmdResult.timeout
    else
      waitForCmd cmdid endT t' rest

/-- A message terminates `_waitForCmd`'s scan: its kind is
command-error or command-success and its correlation id is `cmdid`. -/
def cmdMatch (cmdid : Int) (m : TTMessage) : Prop :=
  (m.nClientEvent = CLIENTEVENT_CMD_ERROR ∨
    m.nClientEvent = CLIENTEVENT_CMD_SUCCESS) ∧ m.nSource = cmdid

instance (cmdid : Int) (m : TTMessage) : Decidable (cmdMatch cmdid m) := by
  unfold cmdMatch; infer_instance

/-- Wall-clock times at which the per-iteration deadline check of
`_waitForCmd` runs, one per poll, starting from clock `t`. -/
def checkTimes (t : Nat) : List Poll → List Nat
  | [] => []
  | (_, d) :: rest => (t + d) :: checkTimes (t + d) rest

/-- What a run of `_waitForEvent` produced: the returned pair
(`ok`, `msg`), the wall clock `time` at the return, and the polls the
run did not consume (`rest`), so that callers that loop
(`_waitForCmdSuccess`) can continue on them. -/
structure WFERes where
  ok : Bool
  msg : TTMessage
  time : Nat
  rest : List Poll
deriving DecidableEq, Repr

/-- The `while` loop of `_waitForEvent` (`teamtalk/_utils.py` lines
13-18): `m` is the message in hand, `t` the clock when it was obtained,
`endT` the deadline fixed before the loop.  A message of the requested
kind returns `(True, msg)`; otherwise once the clock has reached the
deadline the loop returns `(False, sdk.TTMessage())`; otherwise it polls
again.  `none` means the poll list ran out. -/
def waitForEventLoop (event endT : Nat) : TTMessage → Nat → List Poll → Option WFERes
  | m, t, rest =>
    if m.nClientEvent = event then some ⟨true, m, t, rest⟩
    else if endT ≤ t then some ⟨false, TTMessage.empty, t, rest⟩
    else
      match rest with
      | [] => none
      | (m2, d2) :: rest2 => waitForEventLoop event endT m2 (t + d2) rest2

/-- `_waitForEvent(ttclient, event, timeout)` (`teamtalk/_utils.py`
lines 10-18), called at clock `t0`.  The first poll
(`msg = ttclient.getMessage(timeout)`) takes `d` milliseconds, and only
then is the deadline `end = timestamp() + timeout` computed — at clock
`t0 + d`, so the deadline is `t0 + d + timeout`. -/
def waitForEvent (event T t0 : Nat) : List Poll → Option WFERes
  | [] => none
  | (m, d) :: rest => waitForEventLoop event (t0 + d + T) m (t0 + d) rest

/-- `_waitForCmdSuccess(ttclient, cmdid, timeout)` (`teamtalk/_utils.py`
lines 21-28): repeatedly call `_waitForEvent` filtered to
`CLIENTEVENT_CMD_SUCCESS`; return `(True, msg)` on a success whose
`nSource` is `cmdid`, keep looping on one whose `nSource` is not, and
return `(False, sdk.TTMessage())` as soon as an inner wait times out.
`fuel` bounds the number of `while` iterations (each consumes at least
one poll); `none` means fuel or polls ran out. -/
def waitForCmdSuccess (cmdid : Int) (T : Nat) :
    Nat → Nat → List Poll → Option ((Bool × TTMessage) × Nat)
  | 0, _, _ => none
  | fuel + 1, t0, polls =>
    match waitForEvent CLIENTEVENT_CMD_SUCCESS T t0 polls with
    | none => none
    | some r =>
      if r.ok then
        if r.msg.nSource = cmdid then some ((true, r.msg), r.time)
        else waitForCmdSuccess cmdid T fuel r.time r.rest
      else some ((false, TTMessage.empty), r.time)

/-- Where a command-issuing operation goes right after the native
issuing call: raise a `PermissionError` from the up-front permission
check, raise a `ValueError` without waiting, or proceed into
`_waitForCmd` with the returned correlation id. -/
inductive IssueFlow where
  | raisePermission
  | raiseValue
  | wait (cmdid : Int)
deriving DecidableEq, Repr

/-- The issuing prefix of `TeamTalkInstance.create_channel`
(`teamtalk/instance.py` lines 500-515): permission check, then
`result = sdk._DoMakeChannel(...)`; `if result == -1` raise
`ValueError`, otherwise `_waitForCmd(self.super, result, 2000)`. -/
def create_channel_flow (hasPermission : Bool) (result : Int) : IssueFlow :=
  if ¬ hasPermission then IssueFlow.raisePermission
  else if result = -1 then IssueFlow.raiseValue
  else IssueFlow.wait result

/-- The issuing prefix of `TeamTalkInstance.delete_channel`
(`teamtalk/instance.py` lines 544-551): permission check, then
`result = sdk._DoRemoveChannel(...)`; `if result == -1` raise
`ValueError`, otherwise `_waitForCmd(self.super, result, 2000)`. -/
def delete_channel_flow (hasPermission : Bool) (result : Int) : IssueFlow :=
  if ¬ hasPermission then IssueFlow.raisePermission
  else if result = -1 then IssueFlow.raiseValue
  else IssueFlow.wait result

/-- The fields of `msg.user` read by the user-state-changed branch of
`_process_events`. -/
structure UserFields where
  uUserState : Nat
  nUserID : Int
deriving DecidableEq, Repr

/-- A call to `sdk._EnableAudioBlockEventEx(self._tt, userID,
STREAMTYPE_VOICE, None, enable)`. -/
inductive AudioBlockCall where
  | enableEx (userID : Int) (enable : Bool)
deriving DecidableEq, Repr

/-- The `CLIENTEVENT_USER_STATECHANGE` branch of
`TeamTalkInstance._process_events` (`teamtalk/instance.py` lines
982-988): the audio-block calls it makes and the handler dispatches it
performs (none).  It enables the subscription when `uUserState == 1`
and then returns unconditionally (line 984); the `uUserState == 0`
disable at lines 985-987 comes after that `return` and is unreachable,
so it contributes nothing here. -/
def process_user_statechange (u : UserFields) : List AudioBlockCall × List String :=
  (if u.uUserState = 1 then [AudioBlockCall.enableEx u.nUserID true] else [], [])

/-- How an awaited coroutine ends: normally, cancelled, or raising an
`Exception` (identified by a numeric tag). -/
inductive HandlerOutcome where
  | ok
  | cancelled
  | raises (e : Nat)
deriving DecidableEq, Repr

/-- What one `_run_event` task did: whether `self.on_error` was awaited
and which exception, if any, escaped the task body. -/
structure RunEventResult where
  onErrorCalled : Bool
  propagated : Option Nat
deriving DecidableEq, Repr

/-- `TeamTalkBot._run_event` (`teamtalk/bot.py` lines 152-168): await
the handler coroutine; `asyncio.CancelledError` is swallowed with a
debug log; any other `Exception` is caught and `self.on_error` is
awaited, itself guarded by `except asyncio.CancelledError: pass`. -/
def run_event (handler onError : HandlerOutcome) : RunEventResult :=
  match handler with
  | HandlerOutcome.ok => ⟨false, none⟩
  | HandlerOutcome.cancelled => ⟨false, none⟩
  | HandlerOutcome.raises _ =>
    match onError with
    | HandlerOutcome.ok => ⟨true, none⟩
    | HandlerOutcome.cancelled => ⟨true, none⟩
    | HandlerOutcome.raises e2 => ⟨true, some e2⟩

/-- The default `TeamTalkBot.on_error` (`teamtalk/bot.py` lines
182-196) only logs the exception and returns normally. -/
def default_on_error : HandlerOutcome := HandlerOutcome.ok

/-- The dispatch loop: each dispatched event is run as its own
`_run_event` task (`_schedule_event`, lines 170-179), so every event in
the sequence is processed whatever the earlier handlers did. -/
def dispatch_all (onError : HandlerOutcome) (handlers : List HandlerOutcome) :
    List RunEventResult :=
  handlers.map (fun h => run_event h onError)

/-- The two accumulator lists on `TeamTalkInstance` populated by
enumeration-result events (entries are opaque tags). -/
structure AccumState where
  user_accounts : List Nat
  banned_users : List Nat
deriving DecidableEq, Repr

/-- The accumulator-relevant steps of the enumeration-triggering
operations. -/
inductive EnumStep where
  | clearAccounts
  | issueListUserAccounts
  | clearBans
  | issueListBans
deriving DecidableEq, Repr

/-- Effect of each step on the accumulators: the assignments
`self.user_accounts = []` / `self.banned_users = []` reset their list;
the native `sdk._DoListUserAccounts` / `sdk._DoListBans` calls do not
touch the accumulators. -/
def applyEnumStep (s : AccumState) : EnumStep → AccumState
  | EnumStep.clearAccounts => { s with user_accounts := [] }
  | EnumStep.issueListUserAccounts => s
  | EnumStep.clearBans => { s with banned_users := [] }
  | EnumStep.issueListBans => s

/-- Accumulator steps of `TeamTalkInstance.list_user_accounts`
(`teamtalk/instance.py` lines 720-737): after the admin check it runs
`self.user_accounts = []` and only then
`sdk._DoListUserAccounts(self._tt, 0, 1000000)`. -/
def list_user_accounts_steps (isAdmin : Bool) : List EnumStep :=
  if isAdmin then [EnumStep.clearAccounts, EnumStep.issueListUserAccounts] else []

/-- Accumulator steps of `TeamTalkInstance.list_banned_users`
(`teamtalk/instance.py` lines 921-938): after the admin check it runs
`self.banned_users = []` and only then
`sdk._DoListBans(self._tt, 0, 0, 1000000)`. -/
def list_banned_users_steps (isAdmin : Bool) : List EnumStep :=
  if isAdmin then [EnumStep.clearBans, EnumStep.issueListBans] else []

/-- `setattr(self, name, handler)` as performed by `TeamTalkBot.event`
(`teamtalk/bot.py` lines 116-150): the bot's attribute table maps each
name to at most one handler and a later `setattr` under the same name
overwrites the earlier one.  Handlers are identified by numeric tags. -/
def register (reg : String → Option Nat) (name : String) (h : Nat) :
    String → Option Nat :=
  fun n => if n = name then some h else reg n

/-- The `event` decorator itself (`teamtalk/bot.py` lines 116-150):
raises `TypeError` (`none`) unless given a coroutine function,
otherwise stores it under its `__name__` via `setattr`. -/
def event_register (reg : String → Option Nat) (name : String) (h : Nat)
    (isCoroutineFunction : Bool) : Option (String → Option Nat) :=
  if isCoroutineFunction then some (register reg name h) else none

/-- Handler lookup in `TeamTalkBot.dispatch` (`teamtalk/bot.py` lines
238-243): `getattr(self, "on_" + event)`, scheduling the attribute
found there. -/
def dispatch_handler (reg : String → Option Nat) (event : String) : Option Nat :=
  reg ("on_" ++ event)

/-- `sdk.UserType.USERTYPE_ADMIN` (TeamTalk5 SDK constant). -/
def USERTYPE_ADMIN : Nat := 2

/-- The fields of the account returned by `getMyUserAccount()` that
`has_permission` reads. -/
structure UserAccountFields where
  uUserType : Nat
  uUserRights : Nat
deriving DecidableEq, Repr

/-- `TeamTalkInstance.has_permission` (`teamtalk/instance.py` lines
323-339): an admin account has every permission; otherwise test
`(user_rights & permission) == permission`. -/
def has_permission (user : UserAccountFields) (permission : Nat) : Bool :=
  if user.uUserType = USERTYPE_ADMIN then true
  else user.uUserRights &&& permission == permission

/-- An ASCII lowercase letter code point (Python `str.islower` on the
ASCII range). -/
def isLowerCode (c : Nat) : Bool := 97 ≤ c && c ≤ 122

/-- An ASCII uppercase letter code point (Python `str.isupper` on one
ASCII character). -/
def isUpperCode (c : Nat) : Bool := 65 ≤ c && c ≤ 90

/-- Python `str.upper` on one ASCII code point. -/
def toUpperCode (c : Nat) : Nat := if isLowerCode c then c - 32 else c

/-- Python `str.lower` on one ASCII code point. -/
def toLowerCode (c : Nat) : Nat := if isUpperCode c then c + 32 else c

/-- Python `str.lower` over a whole string of code points. -/
def lowerPy (s : List Nat) : List Nat := s.map toLowerCode

/-- Python `str.capitalize`: first character uppercased, the rest
lowercased. -/
def capitalizePy : List Nat → List Nat
  | [] => []
  | c :: cs => toUpperCode c :: lowerPy cs

/-- A cased ASCII code point. -/
def casedCode (c : Nat) : Bool := isLowerCode c || isUpperCode c

/-- Python `str.isupper` over a whole string: at least one cased
character and every cased character uppercase. -/
def isupperPy (s : List Nat) : Bool :=
  s.any casedCode && s.all (fun c => !casedCode c || isUpperCode c)

/-- The code points of "id". -/
def idCodes : List Nat := [105, 100]

/-- The code points of "ID". -/
def upperIDCodes : List Nat := [73, 68]

/-- Python `attr.split("_")` over code points (95 is `_`). -/
def splitU : List Nat → List (List Nat)
  | [] => [[]]
  | c :: cs =>
    if c = 95 then [] :: splitU cs
    else
      match splitU cs with
      | [] => [[c]]
      | p :: ps => (c :: p) :: ps

/-- Joining parts with `_`, the inverse of `splitU` used to state the
round trip. -/
def joinU : List (List Nat) → List Nat
  | [] => []
  | [p] => p
  | p :: q :: qs => p ++ 95 :: joinU (q :: qs)

/-- The camel-case native name `_get_tt_obj_attribute` builds from the
snake_case `attr` (`teamtalk/_utils.py` lines 52-59): split on
underscores; a part equal to "id" case-insensitively becomes "ID", any
other part is capitalized; the pieces are concatenated in order. -/
def get_tt_name (attr : List Nat) : List Nat :=
  (splitU attr).foldl
    (fun name part =>
      name ++ (if lowerPy part = idCodes then upperIDCodes else capitalizePy part))
    []

/-- The character loop of `_tt_attr_to_py_attr` (`teamtalk/_utils.py`
lines 151-160), applied to the characters after the first: an
uppercase letter whose successor is also uppercase is just lowercased,
an uppercase letter otherwise is preceded by an underscore and
lowercased, and any other character is copied. -/
def ttToPyLoop : List Nat → List Nat
  | [] => []
  | c :: rest =>
    if isUpperCode c then
      match rest with
      | c2 :: _ =>
        if isUpperCode c2 then toLowerCode c :: ttToPyLoop rest
        else 95 :: toLowerCode c :: ttToPyLoop rest
      | [] => 95 :: toLowerCode c :: ttToPyLoop rest
    else c :: ttToPyLoop rest

/-- `_tt_attr_to_py_attr(attr)` (`teamtalk/_utils.py` lines 133-161):
"id" maps to itself; otherwise every character before the first
uppercase letter is discarded, an all-uppercase remainder is lowercased
wholesale, and otherwise the remainder's first letter is lowercased and
the loop handles the rest.  `none` models the `IndexError` Python hits
when `attr` is not "id" and has no uppercase letter. -/
def tt_attr_to_py_attr (attr : List Nat) : Option (List Nat) :=
  if lowerPy attr = idCodes then some idCodes
  else
    match attr.dropWhile (fun c => !isUpperCode c) with
    | [] => none
    | c :: rest =>
      if isupperPy (c :: rest) then some (lowerPy (c :: rest))
      else some (toLowerCode c :: ttToPyLoop rest)

/-- One unfolding step of `waitForEventLoop`. -/
theorem waitForEventLoop_eq (event endT : Nat) (m : TTMessage) (t : Nat)
    (rest : List Poll) :
    waitForEventLoop event endT m t rest =
      (if m.nClientEvent = event then some ⟨true, m, t, rest⟩
      else if endT ≤ t then some ⟨false, TTMessage.empty, t, rest⟩
      else
        match rest with
        | [] => none
        | (m2, d2) :: rest2 => waitForEventLoop event endT m2 (t + d2) rest2) := by
  rw [waitForEventLoop.eq_def]

/-- If no polled message has the requested kind and every poll takes at
most `T` milliseconds, any return of the loop is the `(False, empty)`
timeout return, at a clock that is the entry clock or below
`endT + T`. -/
theorem waitForEventLoop_no_match (event endT T : Nat) :
    ∀ (rest : List Poll) (m : TTMessage) (t : Nat),
      m.nClientEvent ≠ event →
      (∀ p ∈ rest, p.1.nClientEvent ≠ event) →
      (∀ p ∈ rest, p.2 ≤ T) →
      ∀ r, waitForEventLoop event endT m t rest = some r →
        r.ok = false ∧ r.msg = TTMessage.empty ∧ (r.time = t ∨ r.time < endT + T) := by
  intro rest
  induction rest with
  | nil =>
    intro m t hm _ _ r hr
    rw [waitForEventLoop_eq, if_neg hm] at hr
    by_cases ht : endT ≤ t
    · rw [if_pos ht] at hr
      obtain rfl := Option.some.inj hr
      exact ⟨rfl, rfl, Or.inl rfl⟩
    · rw [if_neg ht] at hr
      exact absurd hr (by simp)
  | cons p ps ih =>
    intro m t hm hall hdur r hr
    obtain ⟨m2, d2⟩ := p
    rw [waitForEventLoop_eq, if_neg hm] at hr
    by_cases ht : endT ≤ t
    · rw [if_pos ht] at hr
      obtain rfl := Option.some.inj hr
      exact ⟨rfl, rfl, Or.inl rfl⟩
    · rw [if_neg ht] at hr
      have hd2 : d2 ≤ T := hdur (m2, d2) (by simp)
      have := ih m2 (t + d2) (hall (m2, d2) (by simp))
        (fun q hq => hall q (List.mem_cons_of_mem _ hq))
        (fun q hq => hdur q (List.mem_cons_of_mem _ hq)) r hr
      refine ⟨this.1, this.2.1, Or.inr ?_⟩
      rcases this.2.2 with h | h
      · omega
      · exact h

/-- If every poll takes at least one millisecond and there are enough
polls to push the clock past the deadline, the loop returns. -/
theorem waitForEventLoop_terminates (event endT : Nat) :
    ∀ (rest : List Poll) (m : TTMessage) (t : Nat),
      (∀ p ∈ rest, 1 ≤ p.2) →
      endT ≤ t + rest.length →
      waitForEventLoop event endT m t rest ≠ none := by
  intro rest
  induction rest with
  | nil =>
    intro m t _ hlen
    rw [waitForEventLoop_eq]
    by_cases hm : m.nClientEvent = event
    · simp [hm]
    · have ht : endT ≤ t := by simpa using hlen
      simp [hm, ht]
  | cons p ps ih =>
    intro m t hdur hlen
    obtain ⟨m2, d2⟩ := p
    rw [waitForEventLoop_eq]
    by_cases hm : m.nClientEvent = event
    · simp [hm]
    · by_cases ht : endT ≤ t
      · simp [hm, ht]
      · have hd2 : 1 ≤ d2 := hdur (m2, d2) (by simp)
        have : endT ≤ t + d2 + ps.length := by
          simp only [List.length_cons] at hlen; omega
        simpa [hm, ht] using ih m2 (t + d2)
          (fun q hq => hdur q (List.mem_cons_of_mem _ hq)) this

/-- C2 counterexample: with timeout `T = 2` and three non-matching
polls of durations `2, 1, 2` (each at most one poll interval `T`),
`_waitForEvent` makes its timeout return at clock 5, so the elapsed
time from the call at clock 0 exceeds `T` plus one poll interval
(`2 + 2 = 4`): the deadline is only computed after the first poll, so
the true slack is two poll intervals. -/
theorem waitForEvent_latency_counterexample :
    waitForEvent 220 2 0
        [((⟨0, 0, ClientErrorMsg.empty⟩ : TTMessage), 2),
          ((⟨0, 0, ClientErrorMsg.empty⟩ : TTMessage), 1),
          ((⟨0, 0, ClientErrorMsg.empty⟩ : TTMessage), 2)] =
      some ⟨false, TTMessage.empty, 5, []⟩ ∧
    ¬ (5 - 0 ≤ 2 + 2) := by decide

/-- C2 (amended): if no poll delivers a message of the requested kind
and each poll takes at most `T` milliseconds, then any return of
`_waitForEvent(ttclient, event, T)` started at clock `t0` is
`(False, emptyEvent)` at a clock at most `t0 + 3 * T` — the timeout
plus at most TWO poll intervals of slack; and if polls keep completing
(each taking at least a millisecond, at least `T + 1` of them
available), the call does return rather than run out of polls. -/
theorem waitForEvent_no_match_bounded (event T t0 : Nat) (polls : List Poll)
    (hmatch : ∀ p ∈ polls, p.1.nClientEvent ≠ event)
    (hdur : ∀ p ∈ polls, p.2 ≤ T) :
    (∀ r, waitForEvent event T t0 polls = some r →
      r.ok = false ∧ r.msg = TTMessage.empty ∧ r.time ≤ t0 + 3 * T) ∧
    ((∀ p ∈ polls, 1 ≤ p.2) → T + 1 ≤ polls.length →
      waitForEvent event T t0 polls ≠ none) := by
  cases polls with
  | nil =>
    refine ⟨fun r hr => ?_, fun _ hlen => ?_⟩
    · simp [waitForEvent] at hr
    · simp at hlen
  | cons p rest =>
    obtain ⟨m, d⟩ := p
    have hm : m.nClientEvent ≠ event := hmatch (m, d) (by simp)
    have hd : d ≤ T := hdur (m, d) (by simp)
    constructor
    · intro r hr
      have h := waitForEventLoop_no_match event (t0 + d + T) T rest m (t0 + d) hm
        (fun q hq => hmatch q (List.mem_cons_of_mem _ hq))
        (fun q hq => hdur q (List.mem_cons_of_mem _ hq)) r hr
      refine ⟨h.1, h.2.1, ?_⟩
      rcases h.2.2 with h' | h' <;> omega
    · intro hpos hlen
      have hlen' : T ≤ rest.length := by
        simp only [List.length_cons] at hlen; omega
      exact waitForEventLoop_terminates event (t0 + d + T) rest m (t0 + d)
        (fun q hq => hpos q (List.mem_cons_of_mem _ hq)) (by omega)

/-- Witness for C2's amended theorem: three non-matching one-millisecond
polls with `T = 2` give the `(False, empty)` return at clock 3, within
`0 + 3 * 2`. -/
theorem waitForEvent_no_match_bounded_witness :
    waitForEvent 220 2 0
        [((⟨0, 0, ClientErrorMsg.empty⟩ : TTMessage), 1),
          ((⟨0, 0, ClientErrorMsg.empty⟩ : TTMessage), 1),
          ((⟨0, 0, ClientErrorMsg.empty⟩ : TTMessage), 1)] =
      some ⟨false, TTMessage.empty, 3, []⟩ ∧
    ((⟨false, TTMessage.empty, 3, []⟩ : WFERes).ok = false ∧
      (⟨false, TTMessage.empty, 3, []⟩ : WFERes).msg = TTMessage.empty ∧
      (⟨false, TTMessage.empty, 3, []⟩ : WFERes).time ≤ 0 + 3 * 2) := by
  have h := waitForEvent_no_match_bounded 220 2 0
    [((⟨0, 0, ClientErrorMsg.empty⟩ : TTMessage), 1),
      ((⟨0, 0, ClientErrorMsg.empty⟩ : TTMessage), 1),
      ((⟨0, 0, ClientErrorMsg.empty⟩ : TTMessage), 1)] (by decide) (by decide)
  exact ⟨by decide, h.1 ⟨false, TTMessage.empty, 3, []⟩ (by decide)⟩

/-- In any return of `_waitForEvent`'s loop, a `True` result carries a
message of the requested kind and a `False` result carries the empty
sentinel `sdk.TTMessage()`. -/
theorem waitForEventLoop_shape (event endT : Nat) :
    ∀ (rest : List Poll) (m : TTMessage) (t : Nat) (r : WFERes),
      waitForEventLoop event endT m t rest = some r →
      (r.ok = true → r.msg.nClientEvent = event) ∧
      (r.ok = false → r.msg = TTMessage.empty) := by
  intro rest
  induction rest with
  | nil =>
    intro m t r hr
    rw [waitForEventLoop_eq] at hr
    by_cases hm : m.nClientEvent = event
    · rw [if_pos hm] at hr
      obtain rfl := Option.some.inj hr
      exact ⟨fun _ => hm, fun h => by simp at h⟩
    · rw [if_neg hm] at hr
      by_cases ht : endT ≤ t
      · rw [if_pos ht] at hr
        obtain rfl := Option.some.inj hr
        exact ⟨fun h => by simp at h, fun _ => rfl⟩
      · rw [if_neg ht] at hr
        exact absurd hr (by simp)
  | cons p ps ih =>
    intro m t r hr
    obtain ⟨m2, d2⟩ := p
    rw [waitForEventLoop_eq] at hr
    by_cases hm : m.nClientEvent = event
    · rw [if_pos hm] at hr
      obtain rfl := Option.some.inj hr
      exact ⟨fun _ => hm, fun h => by simp at h⟩
    · rw [if_neg hm] at hr
      by_cases ht : endT ≤ t
      · rw [if_pos ht] at hr
        obtain rfl := Option.some.inj hr
        exact ⟨fun h => by simp at h, fun _ => rfl⟩
      · rw [if_neg ht] at hr
        exact ih m2 (t + d2) r hr

/-- Same shape fact for `_waitForEvent` itself. -/
theorem waitForEvent_shape (event T t0 : Nat) (polls : List Poll) (r : WFERes)
    (hr : waitForEvent event T t0 polls = some r) :
    (r.ok = true → r.msg.nClientEvent = event) ∧
    (r.ok = false → r.msg = TTMessage.empty) := by
  cases polls with
  | nil => simp [waitForEvent] at hr
  | cons p rest =>
    obtain ⟨m, d⟩ := p
    exact waitForEventLoop_shape event (t0 + d + T) rest m (t0 + d) r hr

/-- C6: whatever `_waitForCmdSuccess(ttclient, cmdid, timeout)` returns,
a `True` result carries a command-success message whose correlation id
is `cmdid` (success events with other ids are discarded, and a matching
command-error event is never returned — the filter only passes
command-success messages), and a `False` result — the inner wait timed
out — carries the empty sentinel message. -/
theorem waitForCmdSuccess_only_matching_success (cmdid : Int) (T : Nat) :
    ∀ (fuel t0 : Nat) (polls : List Poll) (b : Bool) (msg : TTMessage) (t : Nat),
      waitForCmdSuccess cmdid T fuel t0 polls = some ((b, msg), t) →
      (b = true → msg.nClientEvent = CLIENTEVENT_CMD_SUCCESS ∧ msg.nSource = cmdid) ∧
      (b = false → msg = TTMessage.empty) := by
  intro fuel
  induction fuel with
  | zero => intro t0 polls b msg t hr; simp [waitForCmdSuccess] at hr
  | succ n ih =>
    intro t0 polls b msg t hr
    rw [waitForCmdSuccess] at hr
    cases hwe : waitForEvent CLIENTEVENT_CMD_SUCCESS T t0 polls with
    | none => rw [hwe] at hr; simp at hr
    | some r =>
      simp only [hwe] at hr
      by_cases hok : r.ok = true
      · rw [if_pos hok] at hr
        by_cases hsrc : r.msg.nSource = cmdid
        · rw [if_pos hsrc] at hr
          simp only [Option.some.injEq, Prod.mk.injEq] at hr
          obtain ⟨⟨hb, hmsg⟩, _⟩ := hr
          subst hb; subst hmsg
          refine ⟨fun _ => ⟨?_, hsrc⟩, fun h => by simp at h⟩
          exact (waitForEvent_shape _ _ _ _ _ hwe).1 hok
        · rw [if_neg hsrc] at hr
          exact ih r.time r.rest b msg t hr
      · rw [if_neg hok] at hr
        simp only [Option.some.injEq, Prod.mk.injEq] at hr
        obtain ⟨⟨hb, hmsg⟩, _⟩ := hr
        subst hb; subst hmsg
        exact ⟨fun h => by simp at h, fun _ => rfl⟩

/-- Witness for C6: a matching command-error, then a success with the
wrong id (discarded), then a success with id 7 — the run returns the
matching success, whose kind and id the theorem then certifies. -/
theorem waitForCmdSuccess_only_matching_success_witness :
    ((true : Bool) = true →
      (⟨220, 7, ClientErrorMsg.empty⟩ : TTMessage).nClientEvent = CLIENTEVENT_CMD_SUCCESS ∧
      (⟨220, 7, ClientErrorMsg.empty⟩ : TTMessage).nSource = 7) ∧
    ((true : Bool) = false → (⟨220, 7, ClientErrorMsg.empty⟩ : TTMessage) = TTMessage.empty) :=
  waitForCmdSuccess_only_matching_success 7 10 2 0
    [((⟨210, 7, ⟨1, []⟩⟩ : TTMessage), 1),
      ((⟨220, 3, ClientErrorMsg.empty⟩ : TTMessage), 1),
      ((⟨220, 7, ClientErrorMsg.empty⟩ : TTMessage), 1)]
    true ⟨220, 7, ClientErrorMsg.empty⟩ 3 (by decide)

/-- One unfolding step of `waitForCmd` on a non-empty poll list. -/
theorem waitForCmd_cons_eq (cmdid : Int) (endT t : Nat) (m : TTMessage) (d : Nat)
    (rest : List Poll) :
    waitForCmd cmdid endT t ((m, d) :: rest) =
      (if m.nClientEvent = CLIENTEVENT_CMD_ERROR ∧ m.nSource = cmdid then
        some (WaitCmdResult.cmdError m.clienterrormsg)
      else if m.nClientEvent = CLIENTEVENT_CMD_SUCCESS ∧ m.nSource = cmdid then
        some (WaitCmdResult.success m)
      else if endT ≤ t + d then some WaitCmdResult.timeout
      else waitForCmd cmdid endT (t + d) rest) := rfl

/-- C1: `_waitForCmd(ttclient, cmdid, T)` is decided by the first polled
event whose correlation id (`nSource`) equals `cmdid` and whose kind is
command-success or command-error, provided all earlier deadline checks
are still before the deadline: it returns the embedded error payload if
that event is a command-error and success with the event otherwise; and
if no matching event occurs among the polls, the only possible return is
the empty-sentinel timeout failure — non-matching events of either kind
never terminate the wait. -/
theorem waitForCmd_first_match_decides (cmdid : Int) (endT : Nat) :
    (∀ (t : Nat) (pre : List Poll) (m : TTMessage) (d : Nat) (post : List Poll),
      (∀ p ∈ pre, ¬ cmdMatch cmdid p.1) →
      (∀ tc ∈ checkTimes t pre, tc < endT) →
      cmdMatch cmdid m →
      waitForCmd cmdid endT t (pre ++ (m, d) :: post) =
        some (if m.nClientEvent = CLIENTEVENT_CMD_ERROR then
            WaitCmdResult.cmdError m.clienterrormsg
          else WaitCmdResult.success m)) ∧
    (∀ (t : Nat) (polls : List Poll) (r : WaitCmdResult),
      (∀ p ∈ polls, ¬ cmdMatch cmdid p.1) →
      waitForCmd cmdid endT t polls = some r →
      r = WaitCmdResult.timeout) := by
  constructor
  · intro t pre
    induction pre generalizing t with
    | nil =>
      intro m d post _ _ hm
      obtain ⟨hk, hs⟩ := hm
      rcases hk with hk | hk
      · rw [List.nil_append, waitForCmd_cons_eq, if_pos ⟨hk, hs⟩, if_pos hk]
      · have hne : ¬ m.nClientEvent = CLIENTEVENT_CMD_ERROR := by
          rw [hk]; decide
        rw [List.nil_append, waitForCmd_cons_eq, if_neg (fun h => hne h.1),
          if_pos ⟨hk, hs⟩, if_neg hne]
    | cons p ps ih =>
      intro m d post hpre htimes hm
      obtain ⟨pm, pd⟩ := p
      have hp1 : ¬ cmdMatch cmdid pm := hpre (pm, pd) (by simp)
      have ht1 : t + pd < endT := htimes (t + pd) (by simp [checkTimes])
      have hnotE : ¬ (pm.nClientEvent = CLIENTEVENT_CMD_ERROR ∧ pm.nSource = cmdid) :=
        fun h => hp1 ⟨Or.inl h.1, h.2⟩
      have hnotS : ¬ (pm.nClientEvent = CLIENTEVENT_CMD_SUCCESS ∧ pm.nSource = cmdid) :=
        fun h => hp1 ⟨Or.inr h.1, h.2⟩
      rw [List.cons_append, waitForCmd_cons_eq, if_neg hnotE, if_neg hnotS,
        if_neg (by omega)]
      exact ih (t + pd) m d post (fun q hq => hpre q (List.mem_cons_of_mem _ hq))
        (fun tc htc => htimes tc (by simp [checkTimes]; exact Or.inr htc)) hm
  · intro t polls
    induction polls generalizing t with
    | nil => intro r _ hr; simp [waitForCmd] at hr
    | cons p ps ih =>
      intro r hall hr
      obtain ⟨pm, pd⟩ := p
      have hp1 : ¬ cmdMatch cmdid pm := hall (pm, pd) (by simp)
      have hnotE : ¬ (pm.nClientEvent = CLIENTEVENT_CMD_ERROR ∧ pm.nSource = cmdid) :=
        fun h => hp1 ⟨Or.inl h.1, h.2⟩
      have hnotS : ¬ (pm.nClientEvent = CLIENTEVENT_CMD_SUCCESS ∧ pm.nSource = cmdid) :=
        fun h => hp1 ⟨Or.inr h.1, h.2⟩
      rw [waitForCmd_cons_eq, if_neg hnotE, if_neg hnotS] at hr
      by_cases ht : endT ≤ t + pd
      · rw [if_pos ht] at hr
        exact (Option.some.injEq _ _ ▸ hr).symm ▸ rfl
      · rw [if_neg ht] at hr
        exact ih (t + pd) r (fun q hq => hall q (List.mem_cons_of_mem _ hq)) hr

/-- Witness for C1: a non-matching success (id 3) is skipped and a later
matching error (id 7) returns its embedded payload; and with only
non-matching polls the result is the timeout sentinel. -/
theorem waitForCmd_first_match_decides_witness :
    waitForCmd 7 100 0
        ([((⟨0, 0, ClientErrorMsg.empty⟩ : TTMessage), 10),
          ((⟨220, 3, ClientErrorMsg.empty⟩ : TTMessage), 5)] ++
          ((⟨210, 7, ⟨5, [97]⟩⟩ : TTMessage), 5) :: []) =
      some (WaitCmdResult.cmdError ⟨5, [97]⟩) ∧
    WaitCmdResult.timeout = WaitCmdResult.timeout := by
  constructor
  · have h := (waitForCmd_first_match_decides 7 100).1 0
      [((⟨0, 0, ClientErrorMsg.empty⟩ : TTMessage), 10),
        ((⟨220, 3, ClientErrorMsg.empty⟩ : TTMessage), 5)]
      ⟨210, 7, ⟨5, [97]⟩⟩ 5 [] (by decide) (by decide) (by decide)
    simpa using h
  · exact (waitForCmd_first_match_decides 7 30).2 0
      [((⟨220, 3, ClientErrorMsg.empty⟩ : TTMessage), 40)]
      WaitCmdResult.timeout (by decide) (by decide)

/-- C3 counterexample: the guards test `result == -1`, not
`result < 0`, so the negative correlation id `-2` does NOT
short-circuit: both operations proceed into `_waitForCmd` with it. -/
theorem create_channel_negative_id_counterexample :
    ((-2 : Int) < 0) ∧
    create_channel_flow true (-2) = IssueFlow.wait (-2) ∧
    delete_channel_flow true (-2) = IssueFlow.wait (-2) := by decide

/-- C3 (amended): when the native issuing call returns `-1` — the only
error id the TeamTalk SDK produces — `create_channel` and
`delete_channel` raise immediately and never reach `_waitForCmd`. -/
theorem channel_ops_minus_one_short_circuits (hasPermission : Bool) (result : Int)
    (h : result = -1) :
    (∀ c, create_channel_flow hasPermission result ≠ IssueFlow.wait c) ∧
    (∀ c, delete_channel_flow hasPermission result ≠ IssueFlow.wait c) := by
  subst h
  cases hasPermission <;>
    simp [create_channel_flow, delete_channel_flow]

/-- Witness for C3's amended theorem at `result = -1`. -/
theorem channel_ops_minus_one_short_circuits_witness :
    create_channel_flow true (-1) ≠ IssueFlow.wait 5 ∧
    delete_channel_flow true (-1) ≠ IssueFlow.wait 5 :=
  ⟨(channel_ops_minus_one_short_circuits true (-1) rfl).1 5,
    (channel_ops_minus_one_short_circuits true (-1) rfl).2 5⟩

/-- C4: for `uUserState == 1` the branch enables the audio-block
subscription and dispatches no handler, as claimed; but for
`uUserState == 0` it performs NO audio-block call at all — the disable
half of the claim is defeated by dead code (`teamtalk/instance.py`
lines 985-987 sit behind the unconditional `return` on line 984). -/
theorem process_user_statechange_inactive_no_disable :
    process_user_statechange ⟨1, 5⟩ = ([AudioBlockCall.enableEx 5 true], []) ∧
    process_user_statechange ⟨0, 5⟩ = ([], []) := by decide

/-- C5: a handler raising any exception `e` has it caught at the
dispatch boundary and routed to `on_error` (with the default hook
nothing escapes the task), and the dispatch loop processes every
dispatched event — one result per event, none of them propagating an
exception. -/
theorem run_event_routes_exceptions (e : Nat) (hs : List HandlerOutcome) :
    run_event (HandlerOutcome.raises e) default_on_error =
      ⟨true, none⟩ ∧
    (dispatch_all default_on_error hs).length = hs.length ∧
    (dispatch_all default_on_error hs).all (fun r => r.propagated.isNone) = true := by
  refine ⟨rfl, by simp [dispatch_all], ?_⟩
  simp only [dispatch_all, List.all_eq_true, List.mem_map]
  rintro r ⟨h, _, rfl⟩
  cases h <;> rfl

/-- C7: both triggering operations clear their accumulator list before
issuing the native enumeration call — the step sequence is exactly
clear-then-issue, and from any prior state the accumulator is empty
right after the clear and still empty after the issue, before any
enumeration-result event has been processed. -/
theorem enumeration_clears_before_issue (s : AccumState) :
    list_user_accounts_steps true =
      [EnumStep.clearAccounts, EnumStep.issueListUserAccounts] ∧
    (applyEnumStep s EnumStep.clearAccounts).user_accounts = [] ∧
    (List.foldl applyEnumStep s (list_user_accounts_steps true)).user_accounts = [] ∧
    list_banned_users_steps true =
      [EnumStep.clearBans, EnumStep.issueListBans] ∧
    (applyEnumStep s EnumStep.clearBans).banned_users = [] ∧
    (List.foldl applyEnumStep s (list_banned_users_steps true)).banned_users = [] := by
  exact ⟨rfl, rfl, rfl, rfl, rfl, rfl⟩

/-- C8: registration goes through `setattr` (after the coroutine
check), so the registry holds at most one handler per event kind and
the last registration wins: after registering `h1` then `h2` under the
same handler name, dispatching that kind invokes `h2` and never `h1`,
and other kinds are untouched. -/
theorem register_last_wins (reg : String → Option Nat) (e : String) (h1 h2 : Nat) :
    event_register reg ("on_" ++ e) h1 true = some (register reg ("on_" ++ e) h1) ∧
    dispatch_handler (register (register reg ("on_" ++ e) h1) ("on_" ++ e) h2) e =
      some h2 ∧
    (h1 ≠ h2 →
      dispatch_handler (register (register reg ("on_" ++ e) h1) ("on_" ++ e) h2) e ≠
        some h1) ∧
    (∀ k, k ≠ "on_" ++ e →
      register (register reg ("on_" ++ e) h1) ("on_" ++ e) h2 k = reg k) := by
  refine ⟨rfl, by simp [dispatch_handler, register], ?_, ?_⟩
  · intro hne hcontra
    rw [dispatch_handler, register] at hcontra
    simp at hcontra
    exact hne hcontra.symm
  · intro k hk
    simp [register, hk]

/-- Witness for C8: registering handlers 0 then 1 for kind `message`
makes dispatch find 1 and not 0. -/
theorem register_last_wins_witness :
    dispatch_handler
        (register (register (fun _ => none) ("on_" ++ "message") 0)
          ("on_" ++ "message") 1) "message" = some 1 ∧
    dispatch_handler
        (register (register (fun _ => none) ("on_" ++ "message") 0)
          ("on_" ++ "message") 1) "message" ≠ some 0 := by
  have h := register_last_wins (fun _ => none) "message" 0 1
  exact ⟨h.2.1, h.2.2.1 (by decide)⟩

/-- C10: `has_permission` returns `True` for an admin account whatever
the rights bitfield, and for a non-admin account it returns `True`
exactly when every bit set in the permission is set in
`uUserRights`. -/
theorem has_permission_spec (user : UserAccountFields) (p : Nat) :
    (user.uUserType = USERTYPE_ADMIN → has_permission user p = true) ∧
    (user.uUserType ≠ USERTYPE_ADMIN →
      (has_permission user p = true ↔
        ∀ i, p.testBit i = true → user.uUserRights.testBit i = true)) := by
  constructor
  · intro h
    simp [has_permission, h]
  · intro h
    rw [has_permission, if_neg h]
    rw [beq_iff_eq]
    constructor
    · intro hand i hp
      have := congrArg (fun n => n.testBit i) hand
      simpa [Nat.testBit_and, hp] using this
    · intro hall
      refine Nat.eq_of_testBit_eq (fun i => ?_)
      rw [Nat.testBit_and]
      cases hp : p.testBit i with
      | false => simp
      | true => simp [hall i hp]

/-- Witness for C10: an admin account (type 2) has permission 7 despite
empty rights; a non-admin account with rights 5 has permission 5. -/
theorem has_permission_spec_witness :
    has_permission ⟨2, 0⟩ 7 = true ∧ has_permission ⟨1, 5⟩ 5 = true := by
  refine ⟨(has_permission_spec ⟨2, 0⟩ 7).1 rfl, ?_⟩
  exact ((has_permission_spec ⟨1, 5⟩ 5).2 (by decide)).mpr (fun i h => h)

/-- A lowercase ASCII letter is not an uppercase one. -/
theorem lower_not_upper (c : Nat) (h : isLowerCode c = true) : isUpperCode c = false := by
  simp only [isLowerCode, Bool.and_eq_true, decide_eq_true_eq] at h
  cases hu : isUpperCode c
  · rfl
  · exfalso
    simp only [isUpperCode, Bool.and_eq_true, decide_eq_true_eq] at hu
    omega

/-- Uppercasing a lowercase ASCII letter yields an uppercase one. -/
theorem toUpper_is_upper (c : Nat) (h : isLowerCode c = true) :
    isUpperCode (toUpperCode c) = true := by
  rw [toUpperCode, if_pos h]
  simp only [isLowerCode, Bool.and_eq_true, decide_eq_true_eq] at h
  simp only [isUpperCode, Bool.and_eq_true, decide_eq_true_eq]
  omega

/-- Lowercasing after uppercasing restores a lowercase ASCII letter. -/
theorem toLower_toUpper (c : Nat) (h : isLowerCode c = true) :
    toLowerCode (toUpperCode c) = c := by
  rw [toUpperCode, if_pos h]
  simp only [isLowerCode, Bool.and_eq_true, decide_eq_true_eq] at h
  have h2 : isUpperCode (c - 32) = true := by
    simp only [isUpperCode, Bool.and_eq_true, decide_eq_true_eq]
    omega
  rw [toLowerCode, if_pos h2]
  omega

/-- Lowercasing fixes a lowercase ASCII letter. -/
theorem toLower_of_lower (c : Nat) (h : isLowerCode c = true) : toLowerCode c = c := by
  rw [toLowerCode, lower_not_upper c h]
  rfl

/-- `str.lower` fixes an all-lowercase string. -/
theorem lowerPy_of_all_lower (p : List Nat) (h : ∀ c ∈ p, isLowerCode c = true) :
    lowerPy p = p := by
  induction p with
  | nil => rfl
  | cons c cs ih =>
    rw [lowerPy, List.map_cons, toLower_of_lower c (h c (by simp))]
    rw [lowerPy] at ih
    rw [ih (fun q hq => h q (List.mem_cons_of_mem _ hq))]

/-- Python `split` never yields an empty list of parts. -/
theorem splitU_ne_nil : ∀ s : List Nat, splitU s ≠ [] := by
  intro s
  cases s with
  | nil => simp [splitU]
  | cons c cs =>
    rw [splitU]
    by_cases h : c = 95
    · simp [h]
    · rw [if_neg h]
      cases splitU cs <;> simp

/-- Joining the parts of a split restores the original string. -/
theorem joinU_splitU : ∀ s : List Nat, joinU (splitU s) = s := by
  intro s
  induction s with
  | nil => rfl
  | cons c cs ih =>
    rw [splitU]
    by_cases h : c = 95
    · rw [if_pos h]
      cases hs : splitU cs with
      | nil => exact absurd hs (splitU_ne_nil cs)
      | cons p ps =>
        rw [hs] at ih
        rw [joinU, List.nil_append, ih, h]
    · rw [if_neg h]
      cases hs : splitU cs with
      | nil => exact absurd hs (splitU_ne_nil cs)
      | cons p ps =>
        rw [hs] at ih
        cases ps with
        | nil =>
          rw [joinU] at ih
          rw [joinU, ih]
        | cons q qs =>
          rw [joinU] at ih
          rw [joinU, List.cons_append, ih]

/-- Folding list append from an initial accumulator is the accumulator
followed by the flattened images. -/
theorem foldl_append_flatten (f : List Nat → List Nat) :
    ∀ (l : List (List Nat)) (init : List Nat),
      l.foldl (fun acc x => acc ++ f x) init = init ++ (l.map f).flatten := by
  intro l
  induction l with
  | nil => intro init; simp
  | cons x xs ih =>
    intro init
    rw [List.foldl_cons, ih, List.map_cons, List.flatten_cons, List.append_assoc]

/-- `joinU` of a non-empty part list is the head followed by
underscore-prefixed copies of the remaining parts. -/
theorem joinU_eq_flatten :
    ∀ (ps : List (List Nat)) (p : List Nat),
      joinU (p :: ps) = p ++ (ps.map (fun q => 95 :: q)).flatten := by
  intro ps
  induction ps with
  | nil => intro p; rw [joinU]; simp
  | cons q qs ih =>
    intro p
    rw [joinU, ih q, List.map_cons, List.flatten_cons]
    simp

/-- `dropWhile` discards a leading block that satisfies the predicate. -/
theorem dropWhile_append_all (p : Nat → Bool) :
    ∀ (xs ys : List Nat), (∀ c ∈ xs, p c = true) →
      List.dropWhile p (xs ++ ys) = List.dropWhile p ys := by
  intro xs
  induction xs with
  | nil => intro ys _; rfl
  | cons c cs ih =>
    intro ys h
    rw [List.cons_append, List.dropWhile_cons, if_pos (h c (by simp))]
    exact ih ys (fun q hq => h q (List.mem_cons_of_mem _ hq))

/-- `dropWhile` keeps a list whose head refutes the predicate. -/
theorem dropWhile_cons_neg (p : Nat → Bool) (y : Nat) (ys : List Nat)
    (h : p y = false) : List.dropWhile p (y :: ys) = y :: ys := by
  rw [List.dropWhile_cons, if_neg (by simp [h])]

/-- The character loop copies an all-lowercase prefix unchanged. -/
theorem ttToPyLoop_lower_run :
    ∀ (t rest : List Nat), (∀ c ∈ t, isLowerCode c = true) →
      ttToPyLoop (t ++ rest) = t ++ ttToPyLoop rest := by
  intro t
  induction t with
  | nil => intro rest _; rfl
  | cons c cs ih =>
    intro rest h
    have hc : isUpperCode c = false := lower_not_upper c (h c (by simp))
    rw [List.cons_append, ttToPyLoop.eq_def]
    simp only [hc, Bool.false_eq_true, if_false]
    rw [ih rest (fun q hq => h q (List.mem_cons_of_mem _ hq))]
    rfl

/-- The character loop, fed a lowercase run followed by the
capitalized remaining parts, lowercases each part initial back and puts
an underscore before it. -/
theorem ttToPyLoop_parts :
    ∀ (parts : List (List Nat)),
      (∀ p ∈ parts, 2 ≤ p.length ∧ ∀ c ∈ p, isLowerCode c = true) →
      ∀ t : List Nat, (∀ c ∈ t, isLowerCode c = true) →
        ttToPyLoop (t ++ (parts.map capitalizePy).flatten) =
          t ++ ((parts.map (fun p => 95 :: p)).flatten) := by
  intro parts
  induction parts with
  | nil =>
    intro _ t ht
    have := ttToPyLoop_lower_run t [] ht
    simpa [ttToPyLoop] using this
  | cons p ps ih =>
    intro hgood t ht
    obtain ⟨hlen, hlow⟩ := hgood p (by simp)
    cases p with
    | nil => simp at hlen
    | cons h1 p1 =>
      cases p1 with
      | nil => simp at hlen
      | cons c2 t2 =>
        have hh1 : isLowerCode h1 = true := hlow h1 (by simp)
        have hc2 : isLowerCode c2 = true := hlow c2 (by simp)
        have ht2 : ∀ c ∈ t2, isLowerCode c = true :=
          fun c hc => hlow c (by simp [hc])
        rw [List.map_cons, List.flatten_cons]
        rw [capitalizePy, lowerPy_of_all_lower (c2 :: t2) (by
          intro c hc
          rcases List.mem_cons.mp hc with h | h
          · exact h ▸ hc2
          · exact ht2 c h)]
        rw [ttToPyLoop_lower_run t _ ht]
        have step :
            ttToPyLoop ((toUpperCode h1 :: c2 :: t2) ++ (ps.map capitalizePy).flatten) =
              95 :: h1 :: ttToPyLoop ((c2 :: t2) ++ (ps.map capitalizePy).flatten) := by
          rw [List.cons_append, ttToPyLoop.eq_def]
          simp only [toUpper_is_upper h1 hh1, if_true]
          rw [List.cons_append]
          simp only [lower_not_upper c2 hc2, Bool.false_eq_true, if_false]
          rw [toLower_toUpper h1 hh1]
        rw [step, ih (fun q hq => hgood q (List.mem_cons_of_mem _ hq)) (c2 :: t2) (by
          intro c hc
          rcases List.mem_cons.mp hc with h | h
          · exact h ▸ hc2
          · exact ht2 c h)]
        rw [List.map_cons, List.flatten_cons]
        simp

/-- C9: translating a snake_case attribute name to the native
camel-case field name the way `_get_tt_obj_attribute` builds it,
prefixing it with any of the recognized prefixes `n`, `sz`, `b` or `u`,
and then applying `_tt_attr_to_py_attr`, restores the original
snake_case name — provided every underscore-separated part is a
lowercase ASCII word of length at least 2 other than "id". -/
theorem tt_attr_round_trip (attr prefixCodes : List Nat)
    (hpref : prefixCodes = [110] ∨ prefixCodes = [115, 122] ∨
      prefixCodes = [98] ∨ prefixCodes = [117])
    (hparts : ∀ p ∈ splitU attr, 2 ≤ p.length ∧ (∀ c ∈ p, isLowerCode c = true) ∧
      p ≠ idCodes) :
    tt_attr_to_py_attr (prefixCodes ++ get_tt_name attr) = some attr := by
  have hplow : ∀ c ∈ prefixCodes, isLowerCode c = true := by
    rcases hpref with rfl | rfl | rfl | rfl <;> decide
  have hplen : 1 ≤ prefixCodes.length := by
    rcases hpref with rfl | rfl | rfl | rfl <;> decide
  have hname : get_tt_name attr = ((splitU attr).map capitalizePy).flatten := by
    rw [get_tt_name, foldl_append_flatten, List.nil_append]
    congr 1
    exact List.map_congr_left (fun p hp => by
      obtain ⟨_, hlow, hid⟩ := hparts p hp
      rw [lowerPy_of_all_lower p hlow, if_neg hid])
  cases hsplit : splitU attr with
  | nil => exact absurd hsplit (splitU_ne_nil attr)
  | cons p1 ps =>
    obtain ⟨hlen1, hlow1, _⟩ := hparts p1 (by rw [hsplit]; simp)
    cases p1 with
    | nil => simp at hlen1
    | cons h1 q =>
      cases q with
      | nil => simp at hlen1
      | cons c2 t2 =>
        have hh1 : isLowerCode h1 = true := hlow1 h1 (by simp)
        have hc2 : isLowerCode c2 = true := hlow1 c2 (by simp)
        have hc2t2 : ∀ c ∈ c2 :: t2, isLowerCode c = true :=
          fun c hc => hlow1 c (List.mem_cons_of_mem _ hc)
        have hgoodps : ∀ p ∈ ps, 2 ≤ p.length ∧ ∀ c ∈ p, isLowerCode c = true :=
          fun p hp => ⟨(hparts p (by rw [hsplit]; simp [hp])).1,
            (hparts p (by rw [hsplit]; simp [hp])).2.1⟩
        have hN : get_tt_name attr =
            toUpperCode h1 :: ((c2 :: t2) ++ (ps.map capitalizePy).flatten) := by
          rw [hname, hsplit, List.map_cons, List.flatten_cons, capitalizePy,
            lowerPy_of_all_lower (c2 :: t2) hc2t2]
          rfl
        have hid : ¬ lowerPy (prefixCodes ++ get_tt_name attr) = idCodes := by
          intro hcontra
          have hlen := congrArg List.length hcontra
          rw [lowerPy, List.length_map, List.length_append, hN] at hlen
          simp [idCodes] at hlen
          omega
        rw [tt_attr_to_py_attr, if_neg hid]
        have hdrop :
            (prefixCodes ++ get_tt_name attr).dropWhile (fun c => !isUpperCode c) =
              toUpperCode h1 :: ((c2 :: t2) ++ (ps.map capitalizePy).flatten) := by
          rw [dropWhile_append_all _ prefixCodes _ (fun c hc => by
            rw [lower_not_upper c (hplow c hc)]; rfl), hN]
          exact dropWhile_cons_neg _ _ _ (by rw [toUpper_is_upper h1 hh1]; rfl)
        rw [hdrop]
        have hupper :
            isupperPy (toUpperCode h1 :: ((c2 :: t2) ++ (ps.map capitalizePy).flatten)) =
              false := by
          have hmem : c2 ∈ toUpperCode h1 :: ((c2 :: t2) ++ (ps.map capitalizePy).flatten) := by
            simp
          rw [isupperPy]
          have hall :
              ((toUpperCode h1 :: ((c2 :: t2) ++ (ps.map capitalizePy).flatten)).all
                fun c => !casedCode c || isUpperCode c) = false := by
            refine List.all_eq_false.mpr ⟨c2, hmem, ?_⟩
            simp [casedCode, hc2, lower_not_upper c2 hc2]
          rw [hall, Bool.and_false]
        simp only [hupper, Bool.false_eq_true, if_false]
        rw [toLower_toUpper h1 hh1, ttToPyLoop_parts ps hgoodps (c2 :: t2) hc2t2]
        have hjoin : attr = (h1 :: c2 :: t2) ++ ((ps.map fun q => 95 :: q).flatten) := by
          conv_lhs => rw [← joinU_splitU attr, hsplit]
          exact joinU_eq_flatten ps (h1 :: c2 :: t2)
        rw [hjoin]
        rfl

/-- Witness for C9: "user_name" → "UserName" → "nUserName" →
"user_name". -/
theorem tt_attr_round_trip_witness :
    tt_attr_to_py_attr
        ([110] ++ get_tt_name [117, 115, 101, 114, 95, 110, 97, 109, 101]) =
      some [117, 115, 101, 114, 95, 110, 97, 109, 101] :=
  tt_attr_round_trip [117, 115, 101, 114, 95, 110, 97, 109, 101] [110]
    (Or.inl rfl) (by decide)

end TeamTalkPy
